import Mathlib

/-!
# Field-type classifier of finnviz: shallow embedding

This file embeds the field-detection module of the repository
(`fieldDetection.ts`: `detectFieldType`, `detectAllFields` and their
helpers `isTemporalField`, `isOrdinalString`, `hasIdFieldName`,
`looksLikeId`) and proves properties of the embedded definitions.

Modelling conventions:
* JavaScript runtime values that can appear in a data cell are modelled by
  `JSValue` (number, string, null, undefined, boolean).
* JavaScript numbers are modelled by `ℚ`.  Every finite double is a
  rational, and all arithmetic the module performs on the at-most-100
  sampled values (sorting, differences, min/max, sums over small integer
  samples) is exact on doubles in the ranges the module distinguishes, so
  the rational model agrees with the double semantics there.  The
  divisions `gaps / (sorted.length - 1)` and `sum / length` produce `NaN`
  or `±Infinity` in JavaScript when the denominator is zero and every
  `NaN` comparison is false; in `ℚ` division by zero yields `0`, and
  `0 > 0.7`, `0 > 0.3`, `0 > 10000` are false as well, so the guards
  evaluate identically.
* The threshold comparisons against `0.8`, `0.5`, `0.7`, `0.3` are
  modelled with exact rationals.  For sample sizes `≤ 100` the double
  rounding of `n * 0.8` (and friends) never crosses an integer boundary,
  so the exact comparison agrees with the floating-point one.
* The regular expressions of the module are embedded as executable
  functions on `List Char`; `test` with an `i` flag is modelled by
  lowercasing first.
* The arithmetic on `ℚ` is written with the kernel-computable wrappers
  `qadd`, `qsub`, `qmul`, `qdiv`, `qneg`, `qmin`, `qmax` (the library's
  own `Rat` operations are `@[irreducible]`, which would make concrete
  runs of the classifier impossible to evaluate inside a proof).  The
  lemmas `qadd_eq` … `qmax_eq` prove each wrapper equal to the standard
  operation, so every theorem can be read with ordinary `+ - * /`.
* `Number(string)` is modelled by `parseNum`, an executable parser for
  the decimal forms of the JavaScript string-to-number conversion
  (optional surrounding whitespace, empty/whitespace string giving 0,
  optional sign, integer/fraction digits, optional exponent).
-/

/-- The four semantic field types of the module (`FieldType`). -/
inductive FieldType : Type where
  | quantitative : FieldType
  | nominal : FieldType
  | ordinal : FieldType
  | temporal : FieldType
deriving DecidableEq, Repr

/-- A JavaScript cell value as the module can receive it. -/
inductive JSValue : Type where
  | num : ℚ → JSValue
  | str : String → JSValue
  | null : JSValue
  | undefined : JSValue
  | bool : Bool → JSValue
deriving DecidableEq, Repr

/-! ## Kernel-computable rational arithmetic -/

/-- Negation on `ℚ`, computable in the kernel. -/
def qneg (a : ℚ) : ℚ := mkRat (-a.num) a.den

/-- Addition on `ℚ`, computable in the kernel. -/
def qadd (a b : ℚ) : ℚ := mkRat (a.num * b.den + b.num * a.den) (a.den * b.den)

/-- Subtraction on `ℚ`, computable in the kernel. -/
def qsub (a b : ℚ) : ℚ := qadd a (qneg b)

/-- Multiplication on `ℚ`, computable in the kernel. -/
def qmul (a b : ℚ) : ℚ := mkRat (a.num * b.num) (a.den * b.den)

/-- Inverse on `ℚ` (`0⁻¹ = 0`), computable in the kernel. -/
def qinv (a : ℚ) : ℚ :=
  if a.num < 0 then mkRat (-(a.den : Int)) (-a.num).toNat
  else mkRat (a.den : Int) a.num.toNat

/-- Division on `ℚ` (division by zero gives `0`, which models the fact
that every comparison against a JavaScript `NaN`/`±Infinity` quotient the
module performs is false), computable in the kernel. -/
def qdiv (a b : ℚ) : ℚ := qmul a (qinv b)

/-- `Math.min` on two numbers, computable in the kernel. -/
def qmin (a b : ℚ) : ℚ := if a ≤ b then a else b

/-- `Math.max` on two numbers, computable in the kernel. -/
def qmax (a b : ℚ) : ℚ := if a ≤ b then b else a

theorem qneg_eq (a : ℚ) : qneg a = -a := by
  rw [qneg, Rat.mkRat_eq_divInt, Rat.neg_def]

theorem qadd_eq (a b : ℚ) : qadd a b = a + b := by
  have ha : (a.den : ℤ) ≠ 0 := by exact_mod_cast a.den_ne_zero
  have hb : (b.den : ℤ) ≠ 0 := by exact_mod_cast b.den_ne_zero
  conv_rhs => rw [← Rat.num_divInt_den a, ← Rat.num_divInt_den b]
  rw [Rat.divInt_add_divInt _ _ ha hb, qadd, Rat.mkRat_eq_divInt]
  push_cast
  ring_nf

theorem qsub_eq (a b : ℚ) : qsub a b = a - b := by
  rw [qsub, qadd_eq, qneg_eq, sub_eq_add_neg]

theorem qmul_eq (a b : ℚ) : qmul a b = a * b := by
  conv_rhs => rw [← Rat.num_divInt_den a, ← Rat.num_divInt_den b]
  rw [Rat.divInt_mul_divInt' , qmul, Rat.mkRat_eq_divInt]
  push_cast
  ring_nf

theorem qinv_eq (a : ℚ) : qinv a = a⁻¹ := by
  rw [qinv, Rat.inv_def']
  by_cases h : a.num < 0
  · rw [if_pos h, Rat.mkRat_eq_divInt]
    rw [show (((-a.num).toNat : ℤ)) = -a.num by omega]
    rw [show (-(a.den : ℤ)) = -(a.den : ℤ) from rfl]
    exact Rat.neg_divInt_neg _ _
  · rw [if_neg h, Rat.mkRat_eq_divInt]
    rw [show ((a.num.toNat : ℤ)) = a.num by omega]

theorem qdiv_eq (a b : ℚ) : qdiv a b = a / b := by
  rw [qdiv, qmul_eq, qinv_eq, div_eq_mul_inv]

theorem qmin_eq (a b : ℚ) : qmin a b = min a b := by
  rw [qmin, min_def]

theorem qmax_eq (a b : ℚ) : qmax a b = max a b := by
  rw [qmax, max_def]

/-! ## Character classes and lowering -/

/-- ASCII decimal digit (`\d` and `Number` digits). -/
def isDigitC (c : Char) : Bool :=
  decide (48 ≤ c.toNat ∧ c.toNat ≤ 57)

/-- JavaScript whitespace as far as `Number(string)` trimming needs it. -/
def isWsC (c : Char) : Bool :=
  decide (c.toNat = 9 ∨ c.toNat = 10 ∨ c.toNat = 11 ∨ c.toNat = 12 ∨
    c.toNat = 13 ∨ c.toNat = 32)

/-- ASCII lowercasing, modelling the `i` regex flag. -/
def lowerChar (c : Char) : Char :=
  if 65 ≤ c.toNat ∧ c.toNat ≤ 90 then Char.ofNat (c.toNat + 32) else c

/-! ## `Number(string)`: the decimal string-to-number conversion -/

/-- Numeric value of a digit list, most significant first. -/
def digitsToNat (cs : List Char) : Nat :=
  cs.foldl (fun n c => 10 * n + (c.toNat - 48)) 0

/-- Value of an integer digit run as a rational. -/
def digitsQ (cs : List Char) : ℚ :=
  (digitsToNat cs : ℚ)

/-- Value of a fraction digit run as a rational. -/
def fracQ (cs : List Char) : ℚ :=
  qdiv (digitsToNat cs : ℚ) ((10 ^ cs.length : ℕ) : ℚ)

/-- Exponent digits after an optional sign: the scale factor `10^±k`. -/
def expNat (cs : List Char) : Option ℚ :=
  if cs.isEmpty then none
  else if cs.all isDigitC then some ((10 ^ digitsToNat cs : ℕ) : ℚ) else none

/-- Signed exponent body after `e`/`E`. -/
def parseExpDigits (cs : List Char) : Option ℚ :=
  match cs with
  | [] => none
  | c :: rest =>
    if c = '+' then expNat rest
    else if c = '-' then (expNat rest).map (fun q => qdiv 1 q)
    else expNat (c :: rest)

/-- Optional exponent suffix; empty input means scale `1`. -/
def parseExp (cs : List Char) : Option ℚ :=
  match cs with
  | [] => some 1
  | c :: rest => if c = 'e' ∨ c = 'E' then parseExpDigits rest else none

/-- Unsigned decimal body: digits, optional `.` and fraction digits,
optional exponent.  Fails unless the whole input is consumed. -/
def parseUnsigned (cs : List Char) : Option ℚ :=
  let intPart := cs.takeWhile isDigitC
  let rest := cs.dropWhile isDigitC
  match rest with
  | [] => if intPart.isEmpty then none else some (digitsQ intPart)
  | c :: rest2 =>
    if c = '.' then
      let fracPart := rest2.takeWhile isDigitC
      let rest3 := rest2.dropWhile isDigitC
      if intPart.isEmpty ∧ fracPart.isEmpty then none
      else (parseExp rest3).map (fun e => qmul (qadd (digitsQ intPart) (fracQ fracPart)) e)
    else if intPart.isEmpty then none
    else (parseExp rest).map (fun e => qmul (digitsQ intPart) e)

/-- Optional leading sign. -/
def parseSignedNum (cs : List Char) : Option ℚ :=
  match cs with
  | [] => none
  | c :: rest =>
    if c = '+' then parseUnsigned rest
    else if c = '-' then (parseUnsigned rest).map qneg
    else parseUnsigned (c :: rest)

/-- Whitespace trimming at both ends. -/
def trimWs (cs : List Char) : List Char :=
  (((cs.dropWhile isWsC).reverse.dropWhile isWsC)).reverse

/-- `Number(s)` for the decimal forms: `some q` when the conversion
yields the (finite) number `q`, `none` when it yields `NaN`. -/
def parseNum (s : String) : Option ℚ :=
  let cs := trimWs s.data
  if cs.isEmpty then some 0 else parseSignedNum cs

/-! ## The date-shape regular expressions (`DATE_PATTERNS`) -/

/-- `/^\d{4}-\d{2}-\d{2}$/` -/
def matchYMD (cs : List Char) : Bool :=
  let d1 := cs.takeWhile isDigitC
  match cs.dropWhile isDigitC with
  | c1 :: t1 =>
    decide (c1 = '-') &&
      (let d2 := t1.takeWhile isDigitC
       match t1.dropWhile isDigitC with
       | c2 :: t2 =>
         decide (c2 = '-') && decide (d1.length = 4) && decide (d2.length = 2) &&
           decide ((t2.takeWhile isDigitC).length = 2) &&
           decide (t2.dropWhile isDigitC = [])
       | [] => false)
  | [] => false

/-- `/^\d{4}-\d{2}-\d{2}T\d{2}:\d{2}:\d{2}/` (prefix match, free tail). -/
def matchISO (cs : List Char) : Bool :=
  let d1 := cs.takeWhile isDigitC
  match cs.dropWhile isDigitC with
  | c1 :: t1 =>
    decide (c1 = '-') &&
      (let d2 := t1.takeWhile isDigitC
       match t1.dropWhile isDigitC with
       | c2 :: t2 =>
         decide (c2 = '-') && decide (d1.length = 4) && decide (d2.length = 2) &&
           (let d3 := t2.takeWhile isDigitC
            match t2.dropWhile isDigitC with
            | c3 :: t3 =>
              decide (c3 = 'T') && decide (d3.length = 2) &&
                (let h := t3.takeWhile isDigitC
                 match t3.dropWhile isDigitC with
                 | c4 :: t4 =>
                   decide (c4 = ':') && decide (h.length = 2) &&
                     (let m := t4.takeWhile isDigitC
                      match t4.dropWhile isDigitC with
                      | c5 :: t5 =>
                        decide (c5 = ':') && decide (m.length = 2) &&
                          decide (2 ≤ (t5.takeWhile isDigitC).length)
                      | [] => false)
                 | [] => false)
            | [] => false)
       | [] => false)
  | [] => false

/-- `/^\d{1,2}\/\d{1,2}\/\d{2,4}$/` -/
def matchMDYSlash (cs : List Char) : Bool :=
  let d1 := cs.takeWhile isDigitC
  match cs.dropWhile isDigitC with
  | c1 :: t1 =>
    decide (c1 = '/') && decide (1 ≤ d1.length ∧ d1.length ≤ 2) &&
      (let d2 := t1.takeWhile isDigitC
       match t1.dropWhile isDigitC with
       | c2 :: t2 =>
         decide (c2 = '/') && decide (1 ≤ d2.length ∧ d2.length ≤ 2) &&
           decide (2 ≤ (t2.takeWhile isDigitC).length ∧
             (t2.takeWhile isDigitC).length ≤ 4) &&
           decide (t2.dropWhile isDigitC = [])
       | [] => false)
  | [] => false

/-- `/^\d{1,2}-\d{1,2}-\d{2,4}$/` -/
def matchMDYDash (cs : List Char) : Bool :=
  let d1 := cs.takeWhile isDigitC
  match cs.dropWhile isDigitC with
  | c1 :: t1 =>
    decide (c1 = '-') && decide (1 ≤ d1.length ∧ d1.length ≤ 2) &&
      (let d2 := t1.takeWhile isDigitC
       match t1.dropWhile isDigitC with
       | c2 :: t2 =>
         decide (c2 = '-') && decide (1 ≤ d2.length ∧ d2.length ≤ 2) &&
           decide (2 ≤ (t2.takeWhile isDigitC).length ∧
             (t2.takeWhile isDigitC).length ≤ 4) &&
           decide (t2.dropWhile isDigitC = [])
       | [] => false)
  | [] => false

/-- `DATE_PATTERNS.some((pattern) => pattern.test(v))` -/
def matchesDatePattern (s : String) : Bool :=
  matchYMD s.data || matchISO s.data || matchMDYSlash s.data || matchMDYDash s.data

/-! ## The ordinal vocabularies (`ORDINAL_STRING_PATTERNS`) -/

/-- `/^(x{0,3}[sml]|small|medium|large|x+large)$/i` on a lowered string. -/
def sizeScale (low : List Char) : Bool :=
  let xs := low.takeWhile (fun c => c == 'x')
  let rest := low.dropWhile (fun c => c == 'x')
  (decide (xs.length ≤ 3) &&
    (rest == ['s'] || rest == ['m'] || rest == ['l'])) ||
  low == ['s', 'm', 'a', 'l', 'l'] ||
  low == ['m', 'e', 'd', 'i', 'u', 'm'] ||
  low == ['l', 'a', 'r', 'g', 'e'] ||
  (decide (1 ≤ xs.length) && rest == ['l', 'a', 'r', 'g', 'e'])

/-- `/^(low|medium|high|critical|urgent)$/i` on a lowered string. -/
def priorityScale (low : List Char) : Bool :=
  low == ['l', 'o', 'w'] ||
  low == ['m', 'e', 'd', 'i', 'u', 'm'] ||
  low == ['h', 'i', 'g', 'h'] ||
  low == ['c', 'r', 'i', 't', 'i', 'c', 'a', 'l'] ||
  low == ['u', 'r', 'g', 'e', 'n', 't']

/-- `/^(poor|fair|good|excellent|outstanding)$/i` on a lowered string. -/
def qualityScale (low : List Char) : Bool :=
  low == ['p', 'o', 'o', 'r'] ||
  low == ['f', 'a', 'i', 'r'] ||
  low == ['g', 'o', 'o', 'd'] ||
  low == ['e', 'x', 'c', 'e', 'l', 'l', 'e', 'n', 't'] ||
  low == ['o', 'u', 't', 's', 't', 'a', 'n', 'd', 'i', 'n', 'g']

/-- `/^(strongly\s*disagree|disagree|neutral|agree|strongly\s*agree)$/i`
on a lowered string. -/
def agreementScale (low : List Char) : Bool :=
  low == ['d', 'i', 's', 'a', 'g', 'r', 'e', 'e'] ||
  low == ['n', 'e', 'u', 't', 'r', 'a', 'l'] ||
  low == ['a', 'g', 'r', 'e', 'e'] ||
  (low.take 8 == ['s', 't', 'r', 'o', 'n', 'g', 'l', 'y'] &&
    (let r := (low.drop 8).dropWhile isWsC
     r == ['d', 'i', 's', 'a', 'g', 'r', 'e', 'e'] || r == ['a', 'g', 'r', 'e', 'e']))

/-- `ORDINAL_STRING_PATTERNS.some((pattern) => pattern.test(v))` -/
def matchesOrdinalVocab (s : String) : Bool :=
  let low := s.data.map lowerChar
  sizeScale low || priorityScale low || qualityScale low || agreementScale low

/-! ## The ID field-name patterns (`ID_NAME_PATTERNS`) -/

/-- A JavaScript line terminator: the characters `.` never matches
(LF, CR, LS, PS). -/
def isLineTermC (c : Char) : Bool :=
  decide (c.toNat = 10 ∨ c.toNat = 13 ∨ c.toNat = 8232 ∨ c.toNat = 8233)

/-- `hasIdFieldName`: the seven case-insensitive name patterns
`^id$`, `_id$`, `^.*_id$`, `^.*id$`, `code$`, `^key$`, `^.*_key$`.
The two unanchored patterns (`_id$`, `code$`) are plain suffix tests;
the `^.*…$` patterns additionally require the characters before the
suffix to contain no line terminator, since `.` cannot cross one. -/
def hasIdFieldName (fieldName : String) : Bool :=
  let low := fieldName.data.map lowerChar
  low == ['i', 'd'] ||
  ['_', 'i', 'd'].isSuffixOf low ||
  (['_', 'i', 'd'].isSuffixOf low &&
    (low.take (low.length - 3)).all (fun c => !isLineTermC c)) ||
  (['i', 'd'].isSuffixOf low &&
    (low.take (low.length - 2)).all (fun c => !isLineTermC c)) ||
  ['c', 'o', 'd', 'e'].isSuffixOf low ||
  low == ['k', 'e', 'y'] ||
  (['_', 'k', 'e', 'y'].isSuffixOf low &&
    (low.take (low.length - 4)).all (fun c => !isLineTermC c))

/-! ## Value-level helpers of `detectFieldType` -/

/-- `v !== null && v !== undefined && v !== ''` is false exactly here. -/
def isAbsent (v : JSValue) : Bool :=
  match v with
  | .null => true
  | .undefined => true
  | .str s => s == ""
  | _ => false

/-- `typeof v === 'string'` projection used by the string filters. -/
def jsStr? (v : JSValue) : Option String :=
  match v with
  | .str s => some s
  | _ => none

/-- `typeof v === 'number'` projection used by `looksLikeId`. -/
def jsNum? (v : JSValue) : Option ℚ :=
  match v with
  | .num q => some q
  | _ => none

/-- `typeof v === 'number' || (typeof v === 'string' && !isNaN(Number(v)))` -/
def isNumericValue (v : JSValue) : Bool :=
  match v with
  | .num _ => true
  | .str s => (parseNum s).isSome
  | _ => false

/-- `typeof v === 'number' ? v : Number(v)` on values that passed
`isNumericValue` (other values never reach this coercion). -/
def toNumber (v : JSValue) : ℚ :=
  match v with
  | .num q => q
  | .str s => (parseNum s).getD 0
  | _ => 0

/-- The string subsequence of a sample (`filter` on `typeof === 'string'`). -/
def stringValuesOf (l : List JSValue) : List String :=
  l.filterMap jsStr?

/-! ## The four sub-checks -/

/-- `isTemporalField` -/
def isTemporalField (values : List JSValue) : Bool :=
  let stringValues := stringValuesOf values
  -- `0.8` is written as the exact rational `mkRat 8 10`
  if (stringValues.length : ℚ) < qmul (values.length : ℚ) (mkRat 8 10) then false
  else
    decide (qmul (mkRat 8 10) (stringValues.length : ℚ) ≤
      ((stringValues.filter matchesDatePattern).length : ℚ))

/-- `isOrdinalString` -/
def isOrdinalString (values : List JSValue) : Bool :=
  let stringValues := stringValuesOf values
  if stringValues.length ≠ values.length then false
  else if stringValues.dedup.length < 2 then false
  else
    -- `0.5` is written as the exact rational `mkRat 5 10`
    decide (qmul (mkRat 5 10) (stringValues.length : ℚ) ≤
      ((stringValues.filter matchesOrdinalVocab).length : ℚ))

/-- Insertion step of the ascending numeric sort `(a, b) => a - b`. -/
def insertQ (x : ℚ) : List ℚ → List ℚ
  | [] => [x]
  | y :: ys => if x ≤ y then x :: y :: ys else y :: insertQ x ys

/-- Ascending sort of the numeric sample. -/
def sortQ (l : List ℚ) : List ℚ :=
  l.foldr insertQ []

/-- Count of adjacent pairs whose difference is exactly 1. -/
def countGaps : List ℚ → Nat
  | a :: b :: rest => (if qsub b a = 1 then 1 else 0) + countGaps (b :: rest)
  | _ => 0

/-- `gaps / (sorted.length - 1)`; `0/0` models the always-false `NaN`
comparisons of the source. -/
def seqRatio (nums : List ℚ) : ℚ :=
  let sorted := sortQ nums
  qdiv (countGaps sorted : ℚ) (qsub (sorted.length : ℚ) 1)

/-- `numericValues.reduce((sum, v) => sum + v, 0) / numericValues.length` -/
def avgOf (nums : List ℚ) : ℚ :=
  qdiv (nums.foldl qadd 0) (nums.length : ℚ)

/-- `looksLikeId` -/
def looksLikeId (values : List JSValue) : Bool :=
  let numericValues := values.filterMap jsNum?
  if numericValues.length ≠ values.length then false
  else if numericValues.all (fun q => q.isInt) = false then false
  -- `0.7` and `0.3` are the exact rationals `mkRat 7 10`, `mkRat 3 10`
  else if seqRatio numericValues > mkRat 7 10 then true
  else decide (avgOf numericValues > 10000) && decide (seqRatio numericValues > mkRat 3 10)

/-! ## `detectFieldType` -/

/-- `CATEGORICAL_THRESHOLD` -/
def categoricalThreshold : Nat := 20

/-- The absent-value filter at the head of `detectFieldType`. -/
def nonNullValues (values : List JSValue) : List JSValue :=
  values.filter (fun v => !isAbsent v)

/-- `nonNullValues.slice(0, 100)` -/
def sampleOf (values : List JSValue) : List JSValue :=
  (nonNullValues values).take 100

/-- `Math.min(...)` of a nonempty list (the sample is never empty when
this is reached; `[]` is given a harmless default). -/
def minQ (l : List ℚ) : ℚ :=
  match l with
  | [] => 0
  | x :: xs => xs.foldl qmin x

/-- `Math.max(...)` of a nonempty list. -/
def maxQ (l : List ℚ) : ℚ :=
  match l with
  | [] => 0
  | x :: xs => xs.foldl qmax x

/-- `fieldName && hasIdFieldName(fieldName)` (an empty name is falsy). -/
def idNameCheck (fieldName : Option String) : Bool :=
  match fieldName with
  | some n => !(n == "") && hasIdFieldName n
  | none => false

/-- The numeric/ID sub-decision tree of `detectFieldType` (reached when
every sample value is numeric). -/
def numericClassify (sample : List JSValue) (fieldName : Option String) : FieldType :=
  if idNameCheck fieldName then .nominal
  else if looksLikeId sample then .nominal
  else
    let actualNumbers := (sample.filter isNumericValue).map toNumber
    let range := qsub (maxQ actualNumbers) (minQ actualNumbers)
    if actualNumbers.any (fun q => !q.isInt) then .quantitative
    else if range > 100 then .quantitative
    else if sample.dedup.length = 1 then .quantitative
    else if sample.dedup.length ≤ categoricalThreshold ∧
        range ≤ (categoricalThreshold : ℚ) then .ordinal
    else .quantitative

/-- The check chain of `detectFieldType` on the working sample. -/
def classifySample (sample : List JSValue) (fieldName : Option String) : FieldType :=
  if isTemporalField sample then .temporal
  else if isOrdinalString sample then .ordinal
  else if (sample.filter isNumericValue).length = sample.length then
    numericClassify sample fieldName
  else .nominal

/-- `detectFieldType` -/
def detectFieldType (values : List JSValue) (fieldName : Option String) : FieldType :=
  if nonNullValues values = [] then .nominal
  else classifySample (sampleOf values) fieldName

/-! ## `detectAllFields` -/

/-- A row is an ordered mapping from column names to cell values. -/
def Row : Type := List (String × JSValue)

/-- `row[name]`: the stored value, or `undefined` when absent. -/
def getVal (row : Row) (name : String) : JSValue :=
  match List.find? (fun p => p.1 == name) row with
  | some p => p.2
  | none => .undefined

/-- `v != null` (loose): false only for `null` and `undefined`. -/
def jsNonNullish (v : JSValue) : Bool :=
  match v with
  | .null => false
  | .undefined => false
  | _ => true

/-- The per-column descriptor (`DetectedField`). -/
structure DetectedField : Type where
  name : String
  type : FieldType
  uniqueCount : Nat
deriving DecidableEq, Repr

/-- `detectAllFields` -/
def detectAllFields (data : List Row) : List DetectedField :=
  match data with
  | [] => []
  | first :: _ =>
    (first.map Prod.fst).map (fun name =>
      let values := data.map (fun row => getVal row name)
      { name := name,
        type := detectFieldType values (some name),
        uniqueCount := (values.filter jsNonNullish).dedup.length })

/-! ## Spec-side comparison definitions -/

/-- Keys of the first row (spec: the descriptor set's column names). -/
def keysOf (data : List Row) : List String :=
  match data with
  | [] => []
  | first :: _ => first.map Prod.fst

/-- The full value sequence of one column in row order. -/
def columnOf (data : List Row) (name : String) : List JSValue :=
  data.map (fun row => getVal row name)

/-- Modelled from the spec: the count of distinct non-absent values of a
column, where absent means null, undefined or empty text.  Stated only to
compare with the `uniqueCount` the code computes. -/
def distinctNonAbsentCount (l : List JSValue) : Nat :=
  (l.filter (fun v => !isAbsent v)).dedup.length

/-- The distinct-value count the code actually computes for
`uniqueCount`: only `null` and `undefined` are excluded. -/
def distinctNonNullishCount (l : List JSValue) : Nat :=
  (l.filter jsNonNullish).dedup.length

/-! ## General helper lemmas -/

theorem seqRatio_single (q : ℚ) : seqRatio [q] = 0 := by
  have hs : sortQ [q] = [q] := rfl
  simp only [seqRatio, hs, countGaps, List.length_singleton, qdiv_eq, qsub_eq]
  norm_num

theorem nonNull_ne_nil_of_sample {values : List JSValue}
    (h : sampleOf values ≠ []) : nonNullValues values ≠ [] := by
  intro hc
  apply h
  rw [sampleOf, hc, List.take_nil]

theorem sample_ne_nil_of_nonNull {values : List JSValue}
    (h : nonNullValues values ≠ []) : sampleOf values ≠ [] := by
  rw [sampleOf]
  obtain ⟨a, t, ht⟩ := List.exists_cons_of_ne_nil h
  rw [ht]
  simp

theorem seqRatio_nil : seqRatio ([] : List ℚ) = 0 := by
  have hs : sortQ ([] : List ℚ) = [] := rfl
  simp only [seqRatio, hs, countGaps, List.length_nil, qdiv_eq, qsub_eq]
  norm_num

theorem length_filterMap_of_all_some {α β : Type} (f : α → Option β) (l : List α)
    (h : ∀ a ∈ l, (f a).isSome = true) : (l.filterMap f).length = l.length := by
  induction l with
  | nil => rfl
  | cons a t ih =>
    rcases hfa : f a with _ | b
    · exact absurd (hfa ▸ h a (by simp)) (by simp)
    · rw [List.filterMap_cons, hfa, List.length_cons,
        ih (fun x hx => h x (List.mem_cons_of_mem a hx)), List.length_cons]

theorem isTemporalField_of_no_strings {l : List JSValue} (hne : l ≠ [])
    (hs : stringValuesOf l = []) : isTemporalField l = false := by
  have hlen : 0 < l.length := List.length_pos.mpr hne
  have hcond : (((stringValuesOf l).length : ℚ)) < qmul (l.length : ℚ) (mkRat 8 10) := by
    rw [hs, qmul_eq]
    simp only [List.length_nil, Nat.cast_zero]
    exact mul_pos (by exact_mod_cast hlen) (by decide)
  simp only [isTemporalField, if_pos hcond]

theorem isOrdinalString_of_no_strings {l : List JSValue} (hne : l ≠ [])
    (hs : stringValuesOf l = []) : isOrdinalString l = false := by
  have hlen : 0 < l.length := List.length_pos.mpr hne
  have hcond : (stringValuesOf l).length ≠ l.length := by
    rw [hs]
    simpa using hlen.ne
  simp only [isOrdinalString, if_pos hcond]

theorem numericClassify_ne_temporal (sample : List JSValue) (fieldName : Option String) :
    numericClassify sample fieldName ≠ FieldType.temporal := by
  simp only [numericClassify]
  repeat' split
  all_goals decide

theorem classify_eq_temporal_imp {values : List JSValue} {fieldName : Option String}
    (h : detectFieldType values fieldName = FieldType.temporal) :
    nonNullValues values ≠ [] ∧ isTemporalField (sampleOf values) = true := by
  rw [detectFieldType] at h
  by_cases hnn : nonNullValues values = []
  · rw [if_pos hnn] at h
    exact absurd h (by decide)
  · rw [if_neg hnn, classifySample] at h
    refine ⟨hnn, ?_⟩
    by_cases ht : isTemporalField (sampleOf values) = true
    · exact ht
    · rw [if_neg ht] at h
      by_cases ho : isOrdinalString (sampleOf values) = true
      · rw [if_pos ho] at h
        exact absurd h (by decide)
      · rw [if_neg ho] at h
        by_cases hn : ((sampleOf values).filter isNumericValue).length = (sampleOf values).length
        · rw [if_pos hn] at h
          exact absurd h (numericClassify_ne_temporal _ _)
        · rw [if_neg hn] at h
          exact absurd h (by decide)

theorem isTemporalField_true_imp {l : List JSValue} (h : isTemporalField l = true) :
    (4 / 5 : ℚ) * (l.length : ℚ) ≤ ((stringValuesOf l).length : ℚ) ∧
      (4 / 5 : ℚ) * ((stringValuesOf l).length : ℚ) ≤
        (((stringValuesOf l).filter matchesDatePattern).length : ℚ) := by
  have hm : mkRat 8 10 = (4 / 5 : ℚ) := by
    rw [Rat.mkRat_eq_div]
    norm_num
  simp only [isTemporalField] at h
  by_cases hc : (((stringValuesOf l).length : ℚ)) < qmul (l.length : ℚ) (mkRat 8 10)
  · rw [if_pos hc] at h
    exact absurd h (by decide)
  · rw [if_neg hc] at h
    rw [qmul_eq, hm, not_lt] at hc
    constructor
    · calc (4 / 5 : ℚ) * (l.length : ℚ) = (l.length : ℚ) * (4 / 5 : ℚ) := by ring
        _ ≤ _ := hc
    · have h2 := of_decide_eq_true h
      rw [qmul_eq, hm] at h2
      exact h2

/-! Character facts -/

theorem digit_not_ws {c : Char} (h : isDigitC c = true) : isWsC c = false := by
  rw [isDigitC, decide_eq_true_iff] at h
  rw [isWsC]
  apply decide_eq_false
  omega

theorem digit_ne_of_code {c d : Char} (h : isDigitC c = true)
    (hd : ¬(48 ≤ d.toNat ∧ d.toNat ≤ 57)) : c ≠ d := by
  intro he
  rw [isDigitC, decide_eq_true_iff] at h
  exact hd (he ▸ h)

theorem lowerChar_of_small {c : Char} (h : c.toNat < 65) : lowerChar c = c := by
  rw [lowerChar, if_neg]
  omega

/-! Trimming structure -/

theorem trim_cons {c : Char} {rest : List Char} (hc : isWsC c = false) :
    trimWs (c :: rest) = c :: ((rest.reverse.dropWhile isWsC)).reverse := by
  rw [trimWs, List.dropWhile_cons, if_neg (by simp [hc]), List.reverse_cons,
    List.dropWhile_append]
  by_cases hD : ((rest.reverse.dropWhile isWsC)).isEmpty
  · rw [if_pos hD]
    rw [List.isEmpty_iff] at hD
    rw [hD, List.dropWhile_cons, if_neg (by simp [hc])]
    simp
  · rw [if_neg hD, List.reverse_append, List.reverse_cons, List.reverse_nil,
      List.nil_append, List.singleton_append]

theorem trim_append_prefix {p t : List Char} (hp : p ≠ [])
    (hnw : ∀ c ∈ p, isWsC c = false) :
    ∃ u, trimWs (p ++ t) = p ++ u := by
  obtain ⟨c, p1, rfl⟩ := List.exists_cons_of_ne_nil hp
  rw [List.cons_append, trim_cons (hnw c (by simp))]
  have key : ∀ (l r : List Char), (∀ c ∈ l, isWsC c = false) →
      ((l ++ r).reverse.dropWhile isWsC).reverse = l ++ ((r.reverse.dropWhile isWsC)).reverse := by
    intro l r hl
    rw [List.reverse_append, List.dropWhile_append]
    by_cases hD : ((r.reverse.dropWhile isWsC)).isEmpty
    · rw [if_pos hD]
      rw [List.isEmpty_iff] at hD
      rw [hD]
      cases hl2 : l.reverse with
      | nil =>
        have : l = [] := by simpa using congrArg List.reverse hl2
        simp [this]
      | cons d l2 =>
        have hd : d ∈ l := by
          have : d ∈ l.reverse := by rw [hl2]; simp
          simpa using this
        rw [List.dropWhile_cons, if_neg (by simp [hl d hd])]
        rw [← hl2]
        simp
    · rw [if_neg hD, List.reverse_append]
      simp
  rw [key p1 t (fun c hc => hnw c (by simp [hc]))]
  exact ⟨_, rfl⟩

/-! Maximal digit run before a separator -/

theorem takeWhile_prefix_sep {p : Char → Bool} (d : List Char) (sep : Char) (r : List Char)
    (hall : ∀ c ∈ d, p c = true) (hsep : p sep = false) :
    (d ++ sep :: r).takeWhile p = d ∧ (d ++ sep :: r).dropWhile p = sep :: r := by
  induction d with
  | nil =>
    constructor
    · rw [List.nil_append, List.takeWhile_cons, if_neg (by simp [hsep])]
    · rw [List.nil_append, List.dropWhile_cons, if_neg (by simp [hsep])]
  | cons a l ih =>
    obtain ⟨ih1, ih2⟩ := ih (fun c hc => hall c (by simp [hc]))
    constructor
    · rw [List.cons_append, List.takeWhile_cons, if_pos (by simp [hall a (by simp)]), ih1]
    · rw [List.cons_append, List.dropWhile_cons, if_pos (by simp [hall a (by simp)]), ih2]

/-! `parseNum` fails on a digit run followed by a separator -/

theorem parse_stuck {s : String} {d1 t : List Char} {sep : Char}
    (hsplit : s.data = d1 ++ sep :: t) (hd1 : d1 ≠ [])
    (hdig : ∀ c ∈ d1, isDigitC c = true)
    (hsep1 : isDigitC sep = false) (hsep2 : isWsC sep = false)
    (hsep3 : sep ≠ '.') (hsep4 : sep ≠ 'e') (hsep5 : sep ≠ 'E') :
    parseNum s = none := by
  obtain ⟨c0, d1t, rfl⟩ := List.exists_cons_of_ne_nil hd1
  obtain ⟨u, hu⟩ : ∃ u, trimWs s.data = (c0 :: (d1t ++ [sep])) ++ u := by
    rw [hsplit, show (c0 :: d1t) ++ sep :: t = (c0 :: (d1t ++ [sep])) ++ t by simp]
    apply trim_append_prefix (by simp)
    intro c hc
    simp only [List.mem_cons, List.mem_append, List.mem_singleton,
      List.not_mem_nil, or_false] at hc
    rcases hc with rfl | hc | rfl
    · exact digit_not_ws (hdig c (by simp))
    · exact digit_not_ws (hdig c (by simp [hc]))
    · exact hsep2
  have hc0 : isDigitC c0 = true := hdig c0 (by simp)
  have ht1 : (c0 :: (d1t ++ sep :: u)).takeWhile isDigitC = c0 :: d1t := by
    have := (takeWhile_prefix_sep (c0 :: d1t) sep u hdig hsep1).1
    simpa using this
  have ht2 : (c0 :: (d1t ++ sep :: u)).dropWhile isDigitC = sep :: u := by
    have := (takeWhile_prefix_sep (c0 :: d1t) sep u hdig hsep1).2
    simpa using this
  rw [parseNum, hu, if_neg (by simp)]
  rw [show (c0 :: (d1t ++ [sep])) ++ u = c0 :: (d1t ++ sep :: u) by simp]
  rw [parseSignedNum, if_neg (digit_ne_of_code hc0 (by decide)),
    if_neg (digit_ne_of_code hc0 (by decide))]
  simp only [parseUnsigned, ht1, ht2]
  rw [if_neg hsep3, if_neg (by simp)]
  simp only [parseExp]
  rw [if_neg (by rintro (h | h) <;> [exact hsep4 h; exact hsep5 h])]
  rfl

/-! Each date pattern starts with a nonempty digit run then a separator -/

theorem matchYMD_head {cs : List Char} (h : matchYMD cs = true) :
    ∃ d1 t1, cs = d1 ++ '-' :: t1 ∧ d1 ≠ [] ∧ ∀ c ∈ d1, isDigitC c = true := by
  simp only [matchYMD] at h
  rcases hdrop : cs.dropWhile isDigitC with _ | ⟨c1, t1⟩
  · rw [hdrop] at h
    simp at h
  · rw [hdrop] at h
    dsimp only at h
    rcases hdrop2 : (t1.dropWhile isDigitC) with _ | ⟨c2, t2⟩
    · rw [hdrop2] at h
      simp at h
    · rw [hdrop2] at h
      dsimp only at h
      simp only [Bool.and_eq_true, decide_eq_true_eq] at h
      obtain ⟨hc1, ⟨⟨⟨⟨hc2, hlen4⟩, -⟩, -⟩, -⟩⟩ := h
      subst hc1
      refine ⟨cs.takeWhile isDigitC, t1, ?_, ?_, ?_⟩
      · rw [← hdrop, List.takeWhile_append_dropWhile]
      · intro hnil
        rw [hnil] at hlen4
        simp at hlen4
      · intro c hc
        exact List.mem_takeWhile_imp hc

theorem matchISO_head {cs : List Char} (h : matchISO cs = true) :
    ∃ d1 t1, cs = d1 ++ '-' :: t1 ∧ d1 ≠ [] ∧ ∀ c ∈ d1, isDigitC c = true := by
  simp only [matchISO] at h
  rcases hdrop : cs.dropWhile isDigitC with _ | ⟨c1, t1⟩
  · rw [hdrop] at h
    simp at h
  · rw [hdrop] at h
    dsimp only at h
    rcases hdrop2 : (t1.dropWhile isDigitC) with _ | ⟨c2, t2⟩
    · rw [hdrop2] at h
      simp at h
    · rw [hdrop2] at h
      dsimp only at h
      simp only [Bool.and_eq_true, decide_eq_true_eq] at h
      obtain ⟨hc1, ⟨⟨⟨-, hlen4⟩, -⟩, -⟩⟩ := h
      subst hc1
      refine ⟨cs.takeWhile isDigitC, t1, ?_, ?_, ?_⟩
      · rw [← hdrop, List.takeWhile_append_dropWhile]
      · intro hnil
        rw [hnil] at hlen4
        simp at hlen4
      · intro c hc
        exact List.mem_takeWhile_imp hc

theorem matchMDYSlash_head {cs : List Char} (h : matchMDYSlash cs = true) :
    ∃ d1 t1, cs = d1 ++ '/' :: t1 ∧ d1 ≠ [] ∧ ∀ c ∈ d1, isDigitC c = true := by
  simp only [matchMDYSlash] at h
  rcases hdrop : cs.dropWhile isDigitC with _ | ⟨c1, t1⟩
  · rw [hdrop] at h
    simp at h
  · rw [hdrop] at h
    dsimp only at h
    simp only [Bool.and_eq_true, decide_eq_true_eq] at h
    obtain ⟨⟨hc1, hlen⟩, -⟩ := h
    subst hc1
    refine ⟨cs.takeWhile isDigitC, t1, ?_, ?_, ?_⟩
    · rw [← hdrop, List.takeWhile_append_dropWhile]
    · intro hnil
      rw [hnil] at hlen
      simp at hlen
    · intro c hc
      exact List.mem_takeWhile_imp hc

theorem matchMDYDash_head {cs : List Char} (h : matchMDYDash cs = true) :
    ∃ d1 t1, cs = d1 ++ '-' :: t1 ∧ d1 ≠ [] ∧ ∀ c ∈ d1, isDigitC c = true := by
  simp only [matchMDYDash] at h
  rcases hdrop : cs.dropWhile isDigitC with _ | ⟨c1, t1⟩
  · rw [hdrop] at h
    simp at h
  · rw [hdrop] at h
    dsimp only at h
    simp only [Bool.and_eq_true, decide_eq_true_eq] at h
    obtain ⟨⟨hc1, hlen⟩, -⟩ := h
    subst hc1
    refine ⟨cs.takeWhile isDigitC, t1, ?_, ?_, ?_⟩
    · rw [← hdrop, List.takeWhile_append_dropWhile]
    · intro hnil
      rw [hnil] at hlen
      simp at hlen
    · intro c hc
      exact List.mem_takeWhile_imp hc

/-- A string the numeric conversion accepts matches no date pattern. -/
theorem parse_no_date {s : String} (hp : (parseNum s).isSome = true) :
    matchesDatePattern s = false := by
  have hnone : parseNum s ≠ none := by
    intro hc
    rw [hc] at hp
    exact absurd hp (by simp)
  rw [matchesDatePattern]
  have h1 : matchYMD s.data = false := by
    cases hh : matchYMD s.data
    · rfl
    · obtain ⟨d1, t1, hsplit, hne, hdig⟩ := matchYMD_head hh
      exact absurd (parse_stuck hsplit hne hdig (by decide) (by decide) (by decide)
        (by decide) (by decide)) hnone
  have h2 : matchISO s.data = false := by
    cases hh : matchISO s.data
    · rfl
    · obtain ⟨d1, t1, hsplit, hne, hdig⟩ := matchISO_head hh
      exact absurd (parse_stuck hsplit hne hdig (by decide) (by decide) (by decide)
        (by decide) (by decide)) hnone
  have h3 : matchMDYSlash s.data = false := by
    cases hh : matchMDYSlash s.data
    · rfl
    · obtain ⟨d1, t1, hsplit, hne, hdig⟩ := matchMDYSlash_head hh
      exact absurd (parse_stuck hsplit hne hdig (by decide) (by decide) (by decide)
        (by decide) (by decide)) hnone
  have h4 : matchMDYDash s.data = false := by
    cases hh : matchMDYDash s.data
    · rfl
    · obtain ⟨d1, t1, hsplit, hne, hdig⟩ := matchMDYDash_head hh
      exact absurd (parse_stuck hsplit hne hdig (by decide) (by decide) (by decide)
        (by decide) (by decide)) hnone
  rw [h1, h2, h3, h4]
  rfl

/-! First character of a string the numeric conversion accepts -/

theorem parse_some_head {s : String} {c : Char} {rest : List Char}
    (hp : (parseNum s).isSome = true) (hs : s.data = c :: rest) :
    isWsC c = true ∨ c = '+' ∨ c = '-' ∨ c = '.' ∨ isDigitC c = true := by
  cases hw : isWsC c with
  | true => exact Or.inl rfl
  | false =>
    by_cases hplus : c = '+'
    · exact Or.inr (Or.inl hplus)
    by_cases hminus : c = '-'
    · exact Or.inr (Or.inr (Or.inl hminus))
    by_cases hdot : c = '.'
    · exact Or.inr (Or.inr (Or.inr (Or.inl hdot)))
    cases hdig : isDigitC c with
    | true => exact Or.inr (Or.inr (Or.inr (Or.inr rfl)))
    | false =>
      exfalso
      rw [parseNum, hs, trim_cons hw, if_neg (by simp)] at hp
      rw [parseSignedNum] at hp
      rw [if_neg hplus, if_neg hminus] at hp
      have htw : ((c :: ((rest.reverse.dropWhile isWsC)).reverse)).takeWhile isDigitC = [] := by
        rw [List.takeWhile_cons, if_neg (by simp [hdig])]
      have hdw : ((c :: ((rest.reverse.dropWhile isWsC)).reverse)).dropWhile isDigitC =
          c :: ((rest.reverse.dropWhile isWsC)).reverse := by
        rw [List.dropWhile_cons, if_neg (by simp [hdig])]
      simp only [parseUnsigned, htw, hdw] at hp
      rw [if_neg hdot] at hp
      simp at hp

theorem parse_head_small {s : String} {c : Char} {rest : List Char}
    (hp : (parseNum s).isSome = true) (hs : s.data = c :: rest) : c.toNat < 65 := by
  rcases parse_some_head hp hs with h | h | h | h | h
  · rw [isWsC, decide_eq_true_iff] at h
    omega
  · subst h
    decide
  · subst h
    decide
  · subst h
    decide
  · rw [isDigitC, decide_eq_true_iff] at h
    omega

/-! Every ordinal vocabulary word starts with a lowercase letter -/

theorem scales_head {low : List Char}
    (h : (sizeScale low || priorityScale low || qualityScale low ||
      agreementScale low) = true) :
    ∃ c t, low = c :: t ∧ 97 ≤ c.toNat := by
  have hxsplit := (List.takeWhile_append_dropWhile
    (p := fun c => c == 'x') (l := low)).symm
  have hxrun : ∀ {x : Char} {xs2 : List Char},
      low.takeWhile (fun c => c == 'x') = x :: xs2 → ∃ t, low = 'x' :: t := by
    intro x xs2 hxs
    have hmem : x ∈ low.takeWhile (fun c => c == 'x') := by
      rw [hxs]
      simp
    have hx := List.mem_takeWhile_imp hmem
    have hx2 : x = 'x' := eq_of_beq (by simpa using hx)
    subst hx2
    rw [hxs] at hxsplit
    exact ⟨_, by simpa using hxsplit⟩
  simp only [Bool.or_eq_true] at h
  rcases h with ((hsz | hpr) | hql) | hag
  · simp only [sizeScale, Bool.or_eq_true, Bool.and_eq_true, decide_eq_true_eq] at hsz
    rcases hsz with (((⟨-, hr⟩ | hw) | hw) | hw) | ⟨hlen, hr⟩
    · by_cases hxe : low.takeWhile (fun c => c == 'x') = []
      · rw [hxe, List.nil_append] at hxsplit
        rcases hr with (hr | hr) | hr <;>
          · rw [eq_of_beq hr] at hxsplit
            exact ⟨_, _, hxsplit, by decide⟩
      · obtain ⟨x, xs2, hxs⟩ := List.exists_cons_of_ne_nil hxe
        obtain ⟨t, ht⟩ := hxrun hxs
        exact ⟨'x', t, ht, by decide⟩
    · exact ⟨_, _, eq_of_beq hw, by decide⟩
    · exact ⟨_, _, eq_of_beq hw, by decide⟩
    · exact ⟨_, _, eq_of_beq hw, by decide⟩
    · by_cases hxe : low.takeWhile (fun c => c == 'x') = []
      · rw [hxe] at hlen
        simp at hlen
      · obtain ⟨x, xs2, hxs⟩ := List.exists_cons_of_ne_nil hxe
        obtain ⟨t, ht⟩ := hxrun hxs
        exact ⟨'x', t, ht, by decide⟩
  · simp only [priorityScale, Bool.or_eq_true] at hpr
    rcases hpr with (((hw | hw) | hw) | hw) | hw <;>
      exact ⟨_, _, eq_of_beq hw, by decide⟩
  · simp only [qualityScale, Bool.or_eq_true] at hql
    rcases hql with (((hw | hw) | hw) | hw) | hw <;>
      exact ⟨_, _, eq_of_beq hw, by decide⟩
  · simp only [agreementScale, Bool.or_eq_true, Bool.and_eq_true] at hag
    rcases hag with ((hw | hw) | hw) | ⟨htake, -⟩
    · exact ⟨_, _, eq_of_beq hw, by decide⟩
    · exact ⟨_, _, eq_of_beq hw, by decide⟩
    · exact ⟨_, _, eq_of_beq hw, by decide⟩
    · have ht8 : low.take 8 = ['s', 't', 'r', 'o', 'n', 'g', 'l', 'y'] := eq_of_beq htake
      clear hxsplit hxrun htake
      cases hl : low with
      | nil =>
        rw [hl] at ht8
        simp at ht8
      | cons c t =>
        rw [hl, show (8 : Nat) = 7 + 1 from rfl, List.take_succ_cons] at ht8
        injection ht8 with hc htl
        exact ⟨c, t, rfl, by rw [hc]; decide⟩

/-- A string the numeric conversion accepts matches no ordinal
vocabulary pattern. -/
theorem parse_no_ordinal {s : String} (hp : (parseNum s).isSome = true) :
    matchesOrdinalVocab s = false := by
  cases hh : matchesOrdinalVocab s
  · rfl
  · exfalso
    rw [matchesOrdinalVocab] at hh
    obtain ⟨c, t, hlow, hc97⟩ := scales_head hh
    rcases hsd : s.data with _ | ⟨c0, rest⟩
    · rw [hsd] at hlow
      simp at hlow
    · rw [hsd, List.map_cons] at hlow
      injection hlow with hc0 htl
      have hsmall := parse_head_small hp hsd
      rw [lowerChar_of_small hsmall] at hc0
      rw [← hc0] at hc97
      omega

/-! Samples whose values are all numeric fail the text checks -/

theorem jsStr?_eq_some {v : JSValue} {s : String} (h : jsStr? v = some s) :
    v = JSValue.str s := by
  cases v <;> simp [jsStr?] at h
  rw [h]

theorem isTemporalField_false_of_numeric {l : List JSValue} (hne : l ≠ [])
    (hnum : ∀ v ∈ l, isNumericValue v = true) : isTemporalField l = false := by
  have hm : mkRat 8 10 = (4 / 5 : ℚ) := by
    rw [Rat.mkRat_eq_div]
    norm_num
  have hmatches : (stringValuesOf l).filter matchesDatePattern = [] := by
    rw [List.filter_eq_nil_iff]
    intro s hs
    obtain ⟨v, hv, hjs⟩ := List.mem_filterMap.mp hs
    have hvs := jsStr?_eq_some hjs
    subst hvs
    have hp : (parseNum s).isSome = true := hnum _ hv
    rw [parse_no_date hp]
    simp
  rw [isTemporalField]
  by_cases hc : ((stringValuesOf l).length : ℚ) < qmul (l.length : ℚ) (mkRat 8 10)
  · rw [if_pos hc]
  · rw [if_neg hc]
    apply decide_eq_false
    intro habs
    rw [hmatches] at habs
    rw [qmul_eq, hm] at habs hc
    push_neg at hc
    have hn1 : (1 : ℚ) ≤ (l.length : ℚ) := by
      exact_mod_cast List.length_pos.mpr hne
    simp only [List.length_nil, Nat.cast_zero] at habs
    linarith

theorem isOrdinalString_false_of_numeric {l : List JSValue} (hne : l ≠ [])
    (hnum : ∀ v ∈ l, isNumericValue v = true) : isOrdinalString l = false := by
  have hm : mkRat 5 10 = (1 / 2 : ℚ) := by
    rw [Rat.mkRat_eq_div]
    norm_num
  have hmatches : (stringValuesOf l).filter matchesOrdinalVocab = [] := by
    rw [List.filter_eq_nil_iff]
    intro s hs
    obtain ⟨v, hv, hjs⟩ := List.mem_filterMap.mp hs
    have hvs := jsStr?_eq_some hjs
    subst hvs
    have hp : (parseNum s).isSome = true := hnum _ hv
    rw [parse_no_ordinal hp]
    simp
  rw [isOrdinalString]
  by_cases h1 : (stringValuesOf l).length ≠ l.length
  · rw [if_pos h1]
  · rw [if_neg h1]
    push_neg at h1
    by_cases h2 : (stringValuesOf l).dedup.length < 2
    · rw [if_pos h2]
    · rw [if_neg h2]
      apply decide_eq_false
      intro habs
      rw [hmatches] at habs
      rw [qmul_eq, hm, h1] at habs
      have hn1 : (1 : ℚ) ≤ (l.length : ℚ) := by
        exact_mod_cast List.length_pos.mpr hne
      simp only [List.length_nil, Nat.cast_zero] at habs
      linarith

/-! Constant lists -/

theorem dedup_all_eq {α : Type} [DecidableEq α] {l : List α} {x : α} (hne : l ≠ [])
    (h : ∀ a ∈ l, a = x) : l.dedup = [x] := by
  induction l with
  | nil => exact absurd rfl hne
  | cons a t ih =>
    have ha : a = x := h a (by simp)
    subst ha
    cases ht : t with
    | nil => simp
    | cons b t2 =>
      have hb : b = a := h b (by simp [ht])
      have hmem : a ∈ b :: t2 := by
        rw [← hb]
        simp
      rw [List.dedup_cons_of_mem hmem, ← ht]
      exact ih (by rw [ht]; simp) (fun c hc => h c (by simp [hc]))

theorem countGaps_all_eq {l : List ℚ} {x : ℚ} (h : ∀ a ∈ l, a = x) :
    countGaps l = 0 := by
  induction l with
  | nil => rfl
  | cons a t ih =>
    cases t with
    | nil => rfl
    | cons b t2 =>
      have ha : a = x := h a (by simp)
      have hb : b = x := h b (by simp)
      rw [countGaps, if_neg (by rw [ha, hb, qsub_eq, sub_self]; norm_num)]
      rw [ih (fun c hc => h c (by simp at hc ⊢; tauto))]

theorem mem_insertQ {a x : ℚ} {l : List ℚ} : a ∈ insertQ x l ↔ a = x ∨ a ∈ l := by
  induction l with
  | nil => simp [insertQ]
  | cons y ys ih =>
    rw [insertQ]
    by_cases hxy : x ≤ y
    · rw [if_pos hxy]
      simp
    · rw [if_neg hxy]
      simp only [List.mem_cons, ih]
      tauto

theorem mem_sortQ {a : ℚ} {l : List ℚ} : a ∈ sortQ l ↔ a ∈ l := by
  induction l with
  | nil => simp [sortQ]
  | cons y ys ih =>
    have : sortQ (y :: ys) = insertQ y (sortQ ys) := rfl
    rw [this]
    simp only [mem_insertQ, ih, List.mem_cons]

theorem seqRatio_all_eq {l : List ℚ} {x : ℚ} (h : ∀ a ∈ l, a = x) :
    seqRatio l = 0 := by
  have hg : countGaps (sortQ l) = 0 :=
    countGaps_all_eq (fun a ha => h a (mem_sortQ.mp ha))
  simp only [seqRatio, hg, Nat.cast_zero, qdiv_eq, zero_div]

theorem foldl_qmin_all_eq {l : List ℚ} {x : ℚ} (h : ∀ a ∈ l, a = x) :
    l.foldl qmin x = x := by
  induction l with
  | nil => rfl
  | cons a t ih =>
    rw [List.foldl_cons, h a (by simp), show qmin x x = x from by rw [qmin]; simp]
    exact ih (fun b hb => h b (by simp [hb]))

theorem foldl_qmax_all_eq {l : List ℚ} {x : ℚ} (h : ∀ a ∈ l, a = x) :
    l.foldl qmax x = x := by
  induction l with
  | nil => rfl
  | cons a t ih =>
    rw [List.foldl_cons, h a (by simp), show qmax x x = x from by rw [qmax]; simp]
    exact ih (fun b hb => h b (by simp [hb]))

theorem minQ_all_eq {l : List ℚ} {x : ℚ} (hne : l ≠ []) (h : ∀ a ∈ l, a = x) :
    minQ l = x := by
  cases l with
  | nil => exact absurd rfl hne
  | cons a t =>
    rw [minQ, h a (by simp)]
    exact foldl_qmin_all_eq (fun b hb => h b (by simp [hb]))

theorem maxQ_all_eq {l : List ℚ} {x : ℚ} (hne : l ≠ []) (h : ∀ a ∈ l, a = x) :
    maxQ l = x := by
  cases l with
  | nil => exact absurd rfl hne
  | cons a t =>
    rw [maxQ, h a (by simp)]
    exact foldl_qmax_all_eq (fun b hb => h b (by simp [hb]))

/-! The ID heuristic on constant samples -/

theorem looksLikeId_const_num {sample : List JSValue} {q : ℚ}
    (hall : ∀ a ∈ sample, a = JSValue.num q) (hqi : q.isInt = true) :
    looksLikeId sample = false := by
  have hsome : ∀ v ∈ sample, (jsNum? v).isSome = true := by
    intro v hv
    rw [hall v hv]
    rfl
  have hlen := length_filterMap_of_all_some jsNum? sample hsome
  have hmem : ∀ a ∈ sample.filterMap jsNum?, a = q := by
    intro a ha
    obtain ⟨v, hv, hj⟩ := List.mem_filterMap.mp ha
    rw [hall v hv] at hj
    simp [jsNum?] at hj
    exact hj.symm
  have hratio : seqRatio (sample.filterMap jsNum?) = 0 := seqRatio_all_eq hmem
  have hint : (sample.filterMap jsNum?).all (fun r => r.isInt) = true := by
    rw [List.all_eq_true]
    intro r hr
    rw [hmem r hr]
    exact hqi
  have hc1 : ¬((sample.filterMap jsNum?).length ≠ sample.length) := by
    rw [hlen]
    exact fun hc => hc rfl
  have hc2 : ¬((sample.filterMap jsNum?).all (fun r => r.isInt) = false) := by
    rw [hint]
    exact fun hc => nomatch hc
  have hc3 : ¬(seqRatio (sample.filterMap jsNum?) > mkRat 7 10) := by
    rw [hratio]
    decide
  simp only [looksLikeId, if_neg hc1, if_neg hc2, if_neg hc3]
  rw [hratio, show decide ((0 : ℚ) > mkRat 3 10) = false from by decide, Bool.and_false]

theorem looksLikeId_const_num_nonint {sample : List JSValue} {q : ℚ}
    (hne : sample ≠ []) (hall : ∀ a ∈ sample, a = JSValue.num q)
    (hqi : q.isInt = false) : looksLikeId sample = false := by
  have hsome : ∀ v ∈ sample, (jsNum? v).isSome = true := by
    intro v hv
    rw [hall v hv]
    rfl
  have hlen := length_filterMap_of_all_some jsNum? sample hsome
  have hqmem : q ∈ sample.filterMap jsNum? := by
    obtain ⟨a, t, rfl⟩ := List.exists_cons_of_ne_nil hne
    apply List.mem_filterMap.mpr
    exact ⟨a, by simp, by rw [hall a (by simp)]; rfl⟩
  have hint : (sample.filterMap jsNum?).all (fun r => r.isInt) = false := by
    rw [List.all_eq_false]
    exact ⟨q, hqmem, by simp [hqi]⟩
  have hc1 : ¬((sample.filterMap jsNum?).length ≠ sample.length) := by
    rw [hlen]
    exact fun hc => hc rfl
  simp only [looksLikeId, if_neg hc1, if_pos hint]

theorem looksLikeId_const_str {sample : List JSValue} {s : String}
    (hne : sample ≠ []) (hall : ∀ a ∈ sample, a = JSValue.str s) :
    looksLikeId sample = false := by
  have hnil : sample.filterMap jsNum? = [] := by
    rw [List.filterMap_eq_nil_iff]
    intro v hv
    rw [hall v hv]
    rfl
  have hc1 : (sample.filterMap jsNum?).length ≠ sample.length := by
    rw [hnil, List.length_nil]
    exact fun hc => hne (List.length_eq_zero.mp hc.symm)
  simp only [looksLikeId, if_pos hc1]

/-! The numeric branch on constant samples -/

theorem numericClassify_const {sample : List JSValue} {x : JSValue}
    (fieldName : Option String) (hne : sample ≠ [])
    (hnum : ∀ v ∈ sample, isNumericValue v = true)
    (hall : ∀ a ∈ sample, a = x)
    (huniq : sample.dedup.length = 1)
    (hname : idNameCheck fieldName = false) :
    numericClassify sample fieldName = FieldType.quantitative := by
  have hfilter : sample.filter isNumericValue = sample := List.filter_eq_self.mpr hnum
  have hxmem : x ∈ sample := by
    obtain ⟨a, t, rfl⟩ := List.exists_cons_of_ne_nil hne
    rw [← hall a (by simp)]
    simp
  have hxnum : isNumericValue x = true := hnum x hxmem
  have hmapall : ∀ a ∈ sample.map toNumber, a = toNumber x := by
    intro a ha
    obtain ⟨v, hv, hva⟩ := List.mem_map.mp ha
    rw [← hva, hall v hv]
  have hmapne : sample.map toNumber ≠ [] := by
    intro hc
    rw [List.map_eq_nil_iff] at hc
    exact hne hc
  have hrange : qsub (maxQ (sample.map toNumber)) (minQ (sample.map toNumber)) = 0 := by
    rw [maxQ_all_eq hmapne hmapall, minQ_all_eq hmapne hmapall, qsub_eq, sub_self]
  have hN : ¬(idNameCheck fieldName = true) := by
    rw [hname]
    exact fun h => nomatch h
  have hc4 : ¬((100 : ℚ) < qsub (maxQ (sample.map toNumber)) (minQ (sample.map toNumber))) := by
    rw [hrange]
    decide
  have quantitative_of_nonint : (toNumber x).isInt = false →
      numericClassify sample fieldName = FieldType.quantitative := by
    intro hxi
    have hlooks : looksLikeId sample = false := by
      cases x with
      | num q => exact looksLikeId_const_num_nonint hne hall (by simpa [toNumber] using hxi)
      | str s => exact looksLikeId_const_str hne hall
      | null => exact absurd hxnum (by simp [isNumericValue])
      | undefined => exact absurd hxnum (by simp [isNumericValue])
      | bool b => exact absurd hxnum (by simp [isNumericValue])
    have hdec : (sample.map toNumber).any (fun r => !r.isInt) = true := by
      rw [List.any_eq_true]
      exact ⟨toNumber x, List.mem_map.mpr ⟨x, hxmem, rfl⟩, by simp [hxi]⟩
    have hL : ¬(looksLikeId sample = true) := by
      rw [hlooks]
      exact fun h => nomatch h
    simp only [numericClassify, hfilter, if_neg hN, if_neg hL, if_pos hdec]
  cases hxi : (toNumber x).isInt with
  | false => exact quantitative_of_nonint hxi
  | true =>
    have hlooks : looksLikeId sample = false := by
      cases x with
      | num q => exact looksLikeId_const_num hall (by simpa [toNumber] using hxi)
      | str s => exact looksLikeId_const_str hne hall
      | null => exact absurd hxnum (by simp [isNumericValue])
      | undefined => exact absurd hxnum (by simp [isNumericValue])
      | bool b => exact absurd hxnum (by simp [isNumericValue])
    have hL : ¬(looksLikeId sample = true) := by
      rw [hlooks]
      exact fun h => nomatch h
    have hdec : (sample.map toNumber).any (fun r => !r.isInt) = false := by
      rw [List.any_eq_false]
      intro r hr
      rw [hmapall r hr]
      simp [hxi]
    have hc3 : ¬((sample.map toNumber).any (fun r => !r.isInt) = true) := by
      rw [hdec]
      exact fun h => nomatch h
    simp only [numericClassify, hfilter, if_neg hN, if_neg hL, if_neg hc3,
      if_neg hc4, if_pos huniq]

/-! ## The claims -/

/-- C3: the claim states that `classify([2020, 2021, 2022, 2023, 2024])`
(numbers, no field name) returns `ordinal`.  It does not: the sorted
sample has sequential ratio `4/4 = 1 > 0.7`, so the ID-shape heuristic
fires first and the result is `nominal`. -/
theorem c3_counterexample :
    detectFieldType [JSValue.num 2020, JSValue.num 2021, JSValue.num 2022,
      JSValue.num 2023, JSValue.num 2024] none ≠ FieldType.ordinal := by
  decide

/-- C3 (amended): `classify([2020, 2021, 2022, 2023, 2024])` (numbers, no
field name) returns `nominal`, via the ID-shape heuristic (all values are
integers and the sequential ratio is `1 > 0.7`), not via the small-range
numeric sub-check. -/
theorem c3_amended :
    detectFieldType [JSValue.num 2020, JSValue.num 2021, JSValue.num 2022,
      JSValue.num 2023, JSValue.num 2024] none = FieldType.nominal := by
  decide

/-- C9: `classify` is deterministic: it is a pure function of the value
sequence and the optional field name, so any two evaluations on the same
inputs return the same semantic type tag. -/
theorem c9_deterministic (values : List JSValue) (fieldName : Option String) :
    detectFieldType values fieldName = detectFieldType values fieldName := rfl

/-- The ID-shape heuristic on a one-element numeric sample. -/
theorem looksLikeId_single_num (q : ℚ) : looksLikeId [JSValue.num q] = false := by
  have h1 : List.filterMap jsNum? [JSValue.num q] = [q] := rfl
  simp only [looksLikeId, h1]
  rw [if_neg (by simp)]
  cases hq : q.isInt with
  | false =>
    rw [if_pos (by simp [hq])]
  | true =>
    rw [if_neg (by simp [hq]), seqRatio_single]
    rw [if_neg (by decide)]
    rw [show decide ((0 : ℚ) > mkRat 3 10) = false from by decide]
    rw [Bool.and_false]

/-- C10: on a sample containing exactly one value the ID-shape heuristic
returns `false`: the sequential-ratio denominator `sample size − 1` is
zero, the quotient (`NaN` in JavaScript, `0` in this model) satisfies
neither `> 0.7` nor `> 0.3`, and no failure occurs. -/
theorem c10_single_not_id (values : List JSValue) (h : values.length = 1) :
    looksLikeId values = false := by
  match values, h with
  | [v], _ =>
    cases v with
    | num q => exact looksLikeId_single_num q
    | str s => rw [looksLikeId]; simp [jsNum?]
    | null => rw [looksLikeId]; simp [jsNum?]
    | undefined => rw [looksLikeId]; simp [jsNum?]
    | bool b => rw [looksLikeId]; simp [jsNum?]

/-- C10 witness: the heuristic on the one-element sample `[42]`. -/
theorem c10_witness : looksLikeId [JSValue.num 42] = false :=
  c10_single_not_id [JSValue.num 42] (by decide)

/-- C8: `classify` is total with default `nominal`: it is a total Lean
function into the four-tag type, and on any sequence whose values are all
absent (null, undefined, empty text) — in particular the empty sequence —
it returns `nominal`. -/
theorem c8_total_default_nominal (values : List JSValue) (fieldName : Option String)
    (h : ∀ v ∈ values, isAbsent v = true) :
    detectFieldType values fieldName = FieldType.nominal := by
  have hnil : nonNullValues values = [] := by
    rw [nonNullValues, List.filter_eq_nil_iff]
    intro a ha
    simp [h a ha]
  rw [detectFieldType, if_pos hnil]

/-- C8 witness: `classify([null, null])` and `classify([])` both return
`nominal`. -/
theorem c8_witness :
    detectFieldType [JSValue.null, JSValue.null] none = FieldType.nominal ∧
      detectFieldType [] none = FieldType.nominal :=
  ⟨c8_total_default_nominal [JSValue.null, JSValue.null] none (by decide),
   c8_total_default_nominal [] none (by decide)⟩

/-- C1: the claim states that `classify(['1001','1002','1003','1004','1005'])`
returns `nominal`.  It does not: the ID-shape heuristic requires every
sample value to be an actual number (`typeof v === 'number'`), so a sample
of numeric strings skips it entirely and lands in the numeric sub-checks,
which classify this sample (5 distinct values, range 4) as `ordinal`. -/
theorem c1_counterexample :
    detectFieldType [JSValue.str "1001", JSValue.str "1002", JSValue.str "1003",
        JSValue.str "1004", JSValue.str "1005"] none = FieldType.ordinal ∧
      detectFieldType [JSValue.str "1001", JSValue.str "1002", JSValue.str "1003",
        JSValue.str "1004", JSValue.str "1005"] none ≠ FieldType.nominal := by
  decide

/-- C4: the claim states that a field name ending in `key`
case-insensitively (for example `monkey`) forces `nominal` on a numeric
sample.  It does not: the name patterns only match `key` exactly or a
`_key` suffix (besides the `id`/`_id`/`code` patterns), so `monkey`
matches nothing and `classify([10,20,30],'monkey')` is `ordinal`. -/
theorem c4_counterexample :
    detectFieldType [JSValue.num 10, JSValue.num 20, JSValue.num 30]
        (some "monkey") = FieldType.ordinal ∧
      detectFieldType [JSValue.num 10, JSValue.num 20, JSValue.num 30]
        (some "monkey") ≠ FieldType.nominal := by
  decide

/-- C2: the claim states that `uniqueCount` counts distinct non-absent
values, treating empty text as absent.  It does not: the batch wrapper
filters with a loose `!= null`, which drops only null and undefined, so an
empty string does contribute a distinct value: on the dataset
`[{a: ''}, {a: 'x'}]` the code reports `uniqueCount = 2` while the
claim's count of distinct non-absent values is `1`. -/
theorem c2_counterexample :
    (detectAllFields [[("a", JSValue.str "")], [("a", JSValue.str "x")]]).map
        DetectedField.uniqueCount = [2] ∧
      distinctNonAbsentCount
        (columnOf [[("a", JSValue.str "")], [("a", JSValue.str "x")]] "a") = 1 := by
  decide

/-- C7: the batch wrapper produces exactly one descriptor per key of the
first row, in key order; descriptor `i` carries the `i`-th key as its
name and the result of `classify` on that column's full value sequence
(with the column name passed along) as its type; an empty dataset yields
an empty descriptor list. -/
theorem c7_batch_wrapper (data : List Row) :
    (data = [] → detectAllFields data = []) ∧
    (detectAllFields data).length = (keysOf data).length ∧
    ∀ (i : Nat) (key : String), (keysOf data)[i]? = some key →
      ∃ d, (detectAllFields data)[i]? = some d ∧ d.name = key ∧
        d.type = detectFieldType (columnOf data key) (some key) := by
  cases data with
  | nil =>
    refine ⟨fun _ => rfl, rfl, ?_⟩
    intro i key h
    simp [keysOf] at h
  | cons first tail =>
    refine ⟨fun h => by simp at h, ?_, ?_⟩
    · rw [detectAllFields, keysOf, List.length_map]
    · intro i key h
      rw [keysOf] at h
      rw [detectAllFields, List.getElem?_map, h, Option.map_some']
      exact ⟨_, rfl, rfl, rfl⟩

/-- C7 witness: the wrapper applied to the one-row dataset `[{a: 1}]`. -/
theorem c7_witness :
    ∃ d, (detectAllFields [[("a", JSValue.num 1)]])[0]? = some d ∧
      d.name = "a" ∧
      d.type = detectFieldType (columnOf [[("a", JSValue.num 1)]] "a") (some "a") :=
  (c7_batch_wrapper [[("a", JSValue.num 1)]]).2.2 0 "a" (by decide)

/-- C2 (amended): each descriptor's `uniqueCount` equals the number of
distinct values of that column across all rows excluding only null and
undefined — empty text counts as a value. -/
theorem c2_amended (data : List Row) (i : Nat) (key : String) (d : DetectedField)
    (hk : (keysOf data)[i]? = some key)
    (hd : (detectAllFields data)[i]? = some d) :
    d.uniqueCount = distinctNonNullishCount (columnOf data key) := by
  cases data with
  | nil => simp [keysOf] at hk
  | cons first tail =>
    rw [keysOf] at hk
    rw [detectAllFields, List.getElem?_map, hk, Option.map_some'] at hd
    cases hd
    rfl

/-- C2 witness: on `[{a: ''}, {a: 'x'}]` the produced `uniqueCount` is the
nullish-excluding distinct count (namely 2). -/
theorem c2_witness :
    ({ name := "a", type := FieldType.nominal, uniqueCount := 2 } : DetectedField).uniqueCount =
      distinctNonNullishCount
        (columnOf [[("a", JSValue.str "")], [("a", JSValue.str "x")]] "a") :=
  c2_amended [[("a", JSValue.str "")], [("a", JSValue.str "x")]] 0 "a" _ (by decide) (by decide)

/-- C1 (amended): the ID-shape heuristic applies only to samples of
actual numbers.  For every value sequence whose working sample consists
entirely of integer numbers with sequential ratio above `0.7`, and with no
ID-matching field name supplied, `classify` returns `nominal`. -/
theorem c1_amended (values : List JSValue) (fieldName : Option String)
    (hnum : ∀ v ∈ sampleOf values, ∃ q, v = JSValue.num q ∧ q.isInt = true)
    (hratio : seqRatio ((sampleOf values).filterMap jsNum?) > mkRat 7 10)
    (hname : idNameCheck fieldName = false) :
    detectFieldType values fieldName = FieldType.nominal := by
  have hnn : nonNullValues values ≠ [] := by
    intro hc
    have hsamp : sampleOf values = [] := by rw [sampleOf, hc, List.take_nil]
    rw [hsamp] at hratio
    exact absurd (seqRatio_nil ▸ hratio) (by decide)
  have hsne : sampleOf values ≠ [] := sample_ne_nil_of_nonNull hnn
  have hstr : stringValuesOf (sampleOf values) = [] := by
    rw [stringValuesOf, List.filterMap_eq_nil_iff]
    intro v hv
    obtain ⟨q, rfl, _⟩ := hnum v hv
    rfl
  have htemp := isTemporalField_of_no_strings hsne hstr
  have hord := isOrdinalString_of_no_strings hsne hstr
  have hnumeric : ((sampleOf values).filter isNumericValue).length = (sampleOf values).length := by
    rw [List.filter_eq_self.mpr]
    intro v hv
    obtain ⟨q, rfl, _⟩ := hnum v hv
    rfl
  have hlooks : looksLikeId (sampleOf values) = true := by
    have hall : ∀ v ∈ sampleOf values, (jsNum? v).isSome = true := by
      intro v hv
      obtain ⟨q, rfl, _⟩ := hnum v hv
      rfl
    have hlen := length_filterMap_of_all_some jsNum? (sampleOf values) hall
    have hint : ((sampleOf values).filterMap jsNum?).all (fun q => q.isInt) = true := by
      rw [List.all_eq_true]
      intro q hq
      obtain ⟨v, hv, hjs⟩ := List.mem_filterMap.mp hq
      obtain ⟨q', rfl, hq'⟩ := hnum v hv
      cases hjs
      exact hq'
    have hc1 : ¬(((sampleOf values).filterMap jsNum?).length ≠ (sampleOf values).length) := by
      rw [hlen]
      exact fun h => h rfl
    have hc2 : ¬(((sampleOf values).filterMap jsNum?).all (fun q => q.isInt) = false) := by
      rw [hint]
      exact fun h => nomatch h
    simp only [looksLikeId, if_neg hc1, if_neg hc2, if_pos hratio]
  have hT : ¬(isTemporalField (sampleOf values) = true) := by
    rw [htemp]
    exact fun h => nomatch h
  have hO : ¬(isOrdinalString (sampleOf values) = true) := by
    rw [hord]
    exact fun h => nomatch h
  have hN : ¬(idNameCheck fieldName = true) := by
    rw [hname]
    exact fun h => nomatch h
  rw [detectFieldType, if_neg hnn, classifySample, if_neg hT, if_neg hO,
    if_pos hnumeric, numericClassify, if_neg hN, if_pos hlooks]

/-- C1 witness: `classify([1001,1002,1003,1004,1005])` (actual numbers) is
`nominal` by the amended rule. -/
theorem c1_witness :
    detectFieldType [JSValue.num 1001, JSValue.num 1002, JSValue.num 1003,
      JSValue.num 1004, JSValue.num 1005] none = FieldType.nominal :=
  c1_amended [JSValue.num 1001, JSValue.num 1002, JSValue.num 1003,
      JSValue.num 1004, JSValue.num 1005] none
    (by
      intro v hv
      rw [show sampleOf [JSValue.num 1001, JSValue.num 1002, JSValue.num 1003,
        JSValue.num 1004, JSValue.num 1005] = [JSValue.num 1001, JSValue.num 1002,
        JSValue.num 1003, JSValue.num 1004, JSValue.num 1005] from by decide] at hv
      simp only [List.mem_cons, List.not_mem_nil, or_false] at hv
      rcases hv with rfl | rfl | rfl | rfl | rfl
      · exact ⟨1001, rfl, by decide⟩
      · exact ⟨1002, rfl, by decide⟩
      · exact ⟨1003, rfl, by decide⟩
      · exact ⟨1004, rfl, by decide⟩
      · exact ⟨1005, rfl, by decide⟩)
    (by decide) (by decide)

/-- C5: `classify` returns `temporal` only if at least 80% of the working
sample's values are text and at least 80% of those text values match one
of the four date-shape patterns; consequently a sample with no text
values is never classified `temporal`. -/
theorem c5_temporal_only_if :
    (∀ (values : List JSValue) (fieldName : Option String),
       detectFieldType values fieldName = FieldType.temporal →
         (4 / 5 : ℚ) * ((sampleOf values).length : ℚ) ≤
             ((stringValuesOf (sampleOf values)).length : ℚ) ∧
           (4 / 5 : ℚ) * ((stringValuesOf (sampleOf values)).length : ℚ) ≤
             (((stringValuesOf (sampleOf values)).filter matchesDatePattern).length : ℚ)) ∧
    (∀ (values : List JSValue) (fieldName : Option String),
       (∀ v ∈ values, jsStr? v = none) →
         detectFieldType values fieldName ≠ FieldType.temporal) := by
  constructor
  · intro values fieldName h
    exact isTemporalField_true_imp (classify_eq_temporal_imp h).2
  · intro values fieldName hns
    by_cases hnn : nonNullValues values = []
    · rw [detectFieldType, if_pos hnn]
      decide
    · have hsne : sampleOf values ≠ [] := sample_ne_nil_of_nonNull hnn
      have hstr : stringValuesOf (sampleOf values) = [] := by
        rw [stringValuesOf, List.filterMap_eq_nil_iff]
        intro v hv
        have hv1 : v ∈ nonNullValues values := List.mem_of_mem_take hv
        exact hns v (List.mem_of_mem_filter hv1)
      have hT : ¬(isTemporalField (sampleOf values) = true) := by
        rw [isTemporalField_of_no_strings hsne hstr]
        exact fun h => nomatch h
      rw [detectFieldType, if_neg hnn, classifySample, if_neg hT]
      split
      · decide
      · split
        · exact numericClassify_ne_temporal _ _
        · decide

/-- C5 witness: on the temporal sample `['2023-01-15','2023-02-20',
'2023-03-10']` the two 80% conditions hold. -/
theorem c5_witness :
    (4 / 5 : ℚ) * ((sampleOf [JSValue.str "2023-01-15", JSValue.str "2023-02-20",
        JSValue.str "2023-03-10"]).length : ℚ) ≤
      ((stringValuesOf (sampleOf [JSValue.str "2023-01-15", JSValue.str "2023-02-20",
        JSValue.str "2023-03-10"])).length : ℚ) ∧
    (4 / 5 : ℚ) * ((stringValuesOf (sampleOf [JSValue.str "2023-01-15",
        JSValue.str "2023-02-20", JSValue.str "2023-03-10"])).length : ℚ) ≤
      (((stringValuesOf (sampleOf [JSValue.str "2023-01-15", JSValue.str "2023-02-20",
        JSValue.str "2023-03-10"])).filter matchesDatePattern).length : ℚ) :=
  c5_temporal_only_if.1 [JSValue.str "2023-01-15", JSValue.str "2023-02-20",
    JSValue.str "2023-03-10"] none (by decide)

/-- C6: for every value sequence whose working sample is non-empty, all
numeric (numbers or number-parsing text), and has exactly one distinct
value, with no ID-matching field name supplied, `classify` returns
`quantitative` (not `ordinal`). -/
theorem c6_constant_numeric_quantitative (values : List JSValue) (fieldName : Option String)
    (hne : sampleOf values ≠ [])
    (hnum : ∀ v ∈ sampleOf values, isNumericValue v = true)
    (huniq : (sampleOf values).dedup.length = 1)
    (hname : idNameCheck fieldName = false) :
    detectFieldType values fieldName = FieldType.quantitative := by
  have hnn : nonNullValues values ≠ [] := nonNull_ne_nil_of_sample hne
  obtain ⟨x, hall⟩ : ∃ x, ∀ a ∈ sampleOf values, a = x := by
    rcases hd : (sampleOf values).dedup with _ | ⟨x, t⟩
    · rw [hd] at huniq
      simp at huniq
    · rcases ht : t with _ | ⟨y, t2⟩
      · refine ⟨x, fun a ha => ?_⟩
        have hmem : a ∈ (sampleOf values).dedup := List.mem_dedup.mpr ha
        rw [hd, ht] at hmem
        simpa using hmem
      · rw [hd, ht] at huniq
        simp at huniq
  have hT : ¬(isTemporalField (sampleOf values) = true) := by
    rw [isTemporalField_false_of_numeric hne hnum]
    exact fun h => nomatch h
  have hO : ¬(isOrdinalString (sampleOf values) = true) := by
    rw [isOrdinalString_false_of_numeric hne hnum]
    exact fun h => nomatch h
  have hNum : ((sampleOf values).filter isNumericValue).length = (sampleOf values).length := by
    rw [List.filter_eq_self.mpr hnum]
  rw [detectFieldType, if_neg hnn, classifySample, if_neg hT, if_neg hO, if_pos hNum]
  exact numericClassify_const fieldName hne hnum hall huniq hname

/-- C6 witness: `classify([42])` returns `quantitative`. -/
theorem c6_witness : detectFieldType [JSValue.num 42] none = FieldType.quantitative :=
  c6_constant_numeric_quantitative [JSValue.num 42] none
    (by decide) (by decide) (by decide) (by decide)

/-- C4 (amended): a supplied field name matching the ID name patterns
(exactly `id`; suffix `_id` or `code` anywhere; suffix `id` or `_key`
when no line terminator precedes it; exactly `key`; all
case-insensitive) forces `nominal` on every all-numeric sample; a name
that merely ends in `key` without an underscore, such as `monkey`,
matches no pattern. -/
theorem c4_amended (values : List JSValue) (name : String)
    (hnum : ∀ v ∈ sampleOf values, isNumericValue v = true)
    (hname : name ≠ "") (hid : hasIdFieldName name = true) :
    detectFieldType values (some name) = FieldType.nominal := by
  by_cases hnn : nonNullValues values = []
  · rw [detectFieldType, if_pos hnn]
  · have hne : sampleOf values ≠ [] := sample_ne_nil_of_nonNull hnn
    have hT : ¬(isTemporalField (sampleOf values) = true) := by
      rw [isTemporalField_false_of_numeric hne hnum]
      exact fun h => nomatch h
    have hO : ¬(isOrdinalString (sampleOf values) = true) := by
      rw [isOrdinalString_false_of_numeric hne hnum]
      exact fun h => nomatch h
    have hNum : ((sampleOf values).filter isNumericValue).length = (sampleOf values).length := by
      rw [List.filter_eq_self.mpr hnum]
    have hidname : idNameCheck (some name) = true := by
      have hb : (name == "") = false := by
        rw [beq_eq_false_iff_ne]
        exact hname
      simp only [idNameCheck, hb, hid]
      rfl
    rw [detectFieldType, if_neg hnn, classifySample, if_neg hT, if_neg hO, if_pos hNum,
      numericClassify, if_pos hidname]

/-- C4 witness: the ID-named column `customer_id` with numeric values is
forced `nominal`. -/
theorem c4_witness :
    detectFieldType [JSValue.num 1, JSValue.str "2.5"] (some "customer_id") =
      FieldType.nominal :=
  c4_amended [JSValue.num 1, JSValue.str "2.5"] "customer_id"
    (by decide) (by decide) (by decide)
